import Mathlib

/-!
Verification of the chain-synchronization core of the p2p-oracle-node
repository (package sync in blockchain/sync/sync_mgr.go and package pool
in the block-pool storage file).  External collaborators (the RPC client,
the Merkle proof verifier, the CBOR codec, the mempool, the height index
of the block pool) are modelled as opaque functions carried by an
environment record, exactly as the specification treats them.
-/

/-- Raw byte strings (Go byte slices); each element stands for one byte. -/
abbrev Bytes := List Nat

/-- Block header, mirroring the fields of types.BlockHeader that the sync
core reads: Height (uint64), Hash, LastHash and LastHashProof. -/
structure BlockHeader where
  Height : Nat
  Hash : Bytes
  LastHash : Bytes
  LastHashProof : List Bytes
  deriving DecidableEq, Repr

/-- Transaction, mirroring the fields of types.Transaction that the sync
core reads: Hash and MerkleProof (a nil-able pointer, hence Option). -/
structure Transaction where
  Hash : Bytes
  MerkleProof : Option (List Bytes)
  deriving DecidableEq, Repr

/-- Block, mirroring types.Block: a header plus the transaction list Data. -/
structure Block where
  Header : BlockHeader
  Data : List Transaction
  deriving DecidableEq, Repr

/-- The block pool contents as seen through the sync manager (abstract
state threaded through the environment functions). -/
abbrev PoolState := List Block

/-- Result of pool.GetLatestBlockHeight: the distinguished
pool.ErrLatestHeightNil versus any other (storage) error. -/
inductive PoolLatestErr where
  | latestHeightNil
  | storageError
  deriving DecidableEq, Repr

/-- wire.LastBlockHeightReply. -/
structure LastBlockHeightReply where
  Height : Nat
  Error : Option Unit
  deriving DecidableEq, Repr

/-- wire.GetRangeOfBlocksReply. -/
structure GetRangeOfBlocksReply where
  Blocks : List Block
  FailedBlockHeights : List Nat
  deriving DecidableEq, Repr

/-- wire.GetMempoolTxsReply. -/
structure GetMempoolTxsReply where
  Transactions : List Transaction
  Error : Option Unit
  deriving DecidableEq, Repr

/-- Environment of the sync manager: the collaborators that
sync_mgr.go calls but whose bodies live outside the observed sources
(block-pool height index, Merkle verifier, transaction hash check,
block-pool writer, RPC endpoints, mempool writer).  Each is an opaque
total function; fallible ones return Except or Option. -/
structure SyncEnv where
  fetchHeaderByHeight : PoolState → Nat → Option BlockHeader
  verifyProof : Bytes → List Bytes → Bytes → Except Unit Bool
  validateHash : Transaction → Bool
  storeBlockPool : PoolState → Block → Except Unit PoolState
  getLatestBlockHeight : PoolState → Nat × Option PoolLatestErr
  lastBlockHeightRPC : Except Unit LastBlockHeightReply
  getRangeOfBlocks : Nat → Nat → Except Unit GetRangeOfBlocksReply
  getMempoolTxs : List Bytes → Except Unit GetMempoolTxsReply
  storeTx : List Transaction → Transaction → Except Unit (List Transaction)

/-- Errors produced by processReceivedBlock, one per return site. -/
inductive ProcErr where
  | predecessorMissing
  | lastHashMismatch
  | proofVerifyError
  | lastHashProofInvalid
  | txMissingProof
  | txProofVerifyError
  | txProofInvalid
  | txHashInvalid
  | storeFailed
  deriving DecidableEq, Repr

/-- Errors produced by doInitialBlockPoolSync, one per return site. -/
inductive SyncFail where
  | storeGenesisFailed
  | rpcError
  | replyError
  deriving DecidableEq, Repr

/-- The uint64 modulus. -/
def UINT64MOD : Nat := 2 ^ 64

/-- Go uint64 subtraction of 1: block.Header.Height - 1 with wraparound,
so pred64 0 = 2 ^ 64 - 1. -/
def pred64 (h : Nat) : Nat := (h % UINT64MOD + (UINT64MOD - 1)) % UINT64MOD

/-- The per-transaction checks of processReceivedBlock (the for-loop over
block.Data in sync_mgr.go lines 222-236): merkle proof present, proof
verifies the transaction hash with the block header hash passed as the
root argument, and tx.ValidateHash() holds. -/
def checkTransactions (env : SyncEnv) (blockHash : Bytes) : List Transaction → Except ProcErr Unit
  | [] => .ok ()
  | tx :: rest =>
    match tx.MerkleProof with
    | none => .error .txMissingProof
    | some prf =>
      match env.verifyProof tx.Hash prf blockHash with
      | .error _ => .error .txProofVerifyError
      | .ok false => .error .txProofInvalid
      | .ok true =>
        if env.validateHash tx then checkTransactions env blockHash rest
        else .error .txHashInvalid

/-- The validation section of processReceivedBlock (sync_mgr.go lines
205-236): fetch the header at Height - 1 (uint64 arithmetic), compare
LastHash byte-wise with the predecessor hash, verify LastHashProof with
the predecessor hash passed as the leaf datum and the block header hash
passed as the root argument (mirroring the call
VerifyProofUsing(previousBlockHeader.Hash, false, proof,
[block.Header.Hash], keccak256)), then run the per-transaction checks. -/
def validateBlock (env : SyncEnv) (st : PoolState) (block : Block) : Except ProcErr Unit :=
  match env.fetchHeaderByHeight st (pred64 block.Header.Height) with
  | none => .error .predecessorMissing
  | some previousBlockHeader =>
    if block.Header.LastHash = previousBlockHeader.Hash then
      match env.verifyProof previousBlockHeader.Hash block.Header.LastHashProof block.Header.Hash with
      | .error _ => .error .proofVerifyError
      | .ok false => .error .lastHashProofInvalid
      | .ok true => checkTransactions env block.Header.Hash block.Data
    else .error .lastHashMismatch

/-- processReceivedBlock (sync_mgr.go lines 204-244): the validation
section followed by the StoreBlock call at line 238; any validation error
is returned before the store is reached. -/
def processReceivedBlock (env : SyncEnv) (st : PoolState) (block : Block) : Except ProcErr PoolState :=
  match validateBlock env st block with
  | .error e => .error e
  | .ok _ =>
    match env.storeBlockPool st block with
    | .error _ => .error .storeFailed
    | .ok st2 => .ok st2

/-- Modelled from the spec: policy.MaxBlockCountForRetrieving lives in the
consensus/policy package, outside the observed sources; the spec gives
the design value 1000. -/
def MaxBlockCountForRetrieving : Nat := 1000

/-- Modelled from the spec: policy.MaxTransactionCountForRetrieving lives
in the consensus/policy package, outside the observed sources; the spec
gives the design value 1000. -/
def MaxTransactionCountForRetrieving : Nat := 1000

/-- Modelled from the spec: types2.GenesisBlock() is outside the observed
sources; the spec fixes only a distinguished constant block at height 0
with an implementation-defined well-known hash. -/
def GenesisBlock : Block :=
  { Header := { Height := 0, Hash := [0], LastHash := [], LastHashProof := [] }, Data := [] }

/-- The addedVal computation of the batch-fetch loop (sync_mgr.go lines
117-122): the full remaining count when it is below the cap, the cap
otherwise. -/
def addedValFn (heightCount : Nat) : Nat :=
  if heightCount < MaxBlockCountForRetrieving then heightCount else MaxBlockCountForRetrieving

/-- The batch-fetch loop of doInitialBlockPoolSync (sync_mgr.go lines
115-136), with an explicit fuel argument for structural recursion (the
loop consumes at least one height per iteration, so fuel equal to the
initial heightCount is enough).  Returns the list of (From, To) argument
pairs of the GetRangeOfBlocks calls actually issued, and either the
accumulated received blocks or the first RPC transport error, which
aborts the loop. -/
def fetchLoopAux (env : SyncEnv) : Nat → Nat → Nat → List (Nat × Nat) × Except Unit (List Block)
  | 0, _, _ => ([], .ok [])
  | fuel + 1, tc, heightCount =>
    if heightCount = 0 then ([], .ok [])
    else
      match env.getRangeOfBlocks (tc + 1) (tc + addedValFn heightCount) with
      | .error e => ([(tc + 1, tc + addedValFn heightCount)], .error e)
      | .ok reply =>
        match fetchLoopAux env fuel (tc + addedValFn heightCount) (heightCount - addedValFn heightCount) with
        | (reqs, .error e2) => ((tc + 1, tc + addedValFn heightCount) :: reqs, .error e2)
        | (reqs, .ok bs) => ((tc + 1, tc + addedValFn heightCount) :: reqs, .ok (reply.Blocks ++ bs))

/-- The batch-fetch loop entered with cursor to = tc and the missing
height count, as doInitialBlockPoolSync does. -/
def fetchLoop (env : SyncEnv) (tc heightCount : Nat) : List (Nat × Nat) × Except Unit (List Block) :=
  fetchLoopAux env heightCount tc heightCount

/-- The per-block processing loop of doInitialBlockPoolSync (sync_mgr.go
lines 137-143): every accumulated block is handed to
processReceivedBlock; an error is logged (recorded here in the result
list) and the loop continues with the pool state unchanged by the failed
block. -/
def processBlocksLoop (env : SyncEnv) : PoolState → List Block → PoolState × List (Option ProcErr)
  | st, [] => (st, [])
  | st, b :: rest =>
    match processReceivedBlock env st b with
    | .ok st2 =>
      match processBlocksLoop env st2 rest with
      | (stf, rs) => (stf, none :: rs)
    | .error e =>
      match processBlocksLoop env st rest with
      | (stf, rs) => (stf, some e :: rs)

/-- The peer-height phase of doInitialBlockPoolSync (sync_mgr.go lines
101-148): ask the bootstrap peer for its height and, when the peer is
ahead, fetch the missing range in batches and process the received
blocks; the procedure then returns nil regardless of per-block
failures. -/
def afterGenesis (env : SyncEnv) (st1 : PoolState) (ourLastHeight : Nat) : Except SyncFail PoolState :=
  match env.lastBlockHeightRPC with
  | .error _ => .error .rpcError
  | .ok reply =>
    match reply.Error with
    | some _ => .error .replyError
    | none =>
      if ourLastHeight < reply.Height then
        match (fetchLoop env ourLastHeight (reply.Height - ourLastHeight)).2 with
        | .error _ => .error .rpcError
        | .ok receivedBlocks => .ok (processBlocksLoop env st1 receivedBlocks).1
      else .ok st1

/-- doInitialBlockPoolSync after the guard: read the local latest
height, seed the genesis block exactly when the error is
ErrLatestHeightNil (any other error value is dropped on the floor,
overwritten by the next RPC call), then continue with the peer-height
phase. -/
def doInitialBlockPoolSyncBody (env : SyncEnv) (st : PoolState) : Except SyncFail PoolState :=
  match env.getLatestBlockHeight st with
  | (ourLastHeight, err0) =>
    match (if err0 = some PoolLatestErr.latestHeightNil then
            env.storeBlockPool st GenesisBlock
           else .ok st) with
    | .error _ => .error .storeGenesisFailed
    | .ok st1 => afterGenesis env st1 ourLastHeight

/-- The sync-manager state visible to this core: the
initialSyncCompleted flag (the remaining fields of the Go struct are
opaque handles carried by SyncEnv). -/
structure SyncManagerState where
  initialSyncCompleted : Bool
  deriving DecidableEq, Repr

/-- NewSyncManager (sync_mgr.go lines 48-64): the flag is set to false at
construction; no code path in the package ever assigns it true. -/
def NewSyncManager : SyncManagerState :=
  { initialSyncCompleted := false }

/-- doInitialBlockPoolSync (sync_mgr.go lines 87-149): the guard at lines
88-90 returns early when initialSyncCompleted is set, otherwise the body
runs. -/
def doInitialBlockPoolSync (env : SyncEnv) (sm : SyncManagerState) (st : PoolState) : Except SyncFail PoolState :=
  if sm.initialSyncCompleted then .ok st
  else doInitialBlockPoolSyncBody env st

/-- The store loop over the transactions of a GetMempoolTxs reply
(sync_mgr.go lines 192-197): a StoreTx failure is logged and the loop
continues. -/
def storeTxsLoop (env : SyncEnv) : List Transaction → List Transaction → List Transaction
  | mp, [] => mp
  | mp, t :: rest =>
    match env.storeTx mp t with
    | .ok mp2 => storeTxsLoop env mp2 rest
    | .error _ => storeTxsLoop env mp rest

/-- The batching loop of doInitialMempoolSync (sync_mgr.go lines
167-199), with fuel counting loop iterations.  Mirrors the source
exactly: when len(txsToRetrieve) exceeds the cap the slice is split and
the head is requested, but in the else branch txsToRetrieve is left
unchanged while all of it is requested.  The first component is the list
of Items arguments of the GetMempoolTxs calls issued within the fuel;
the second is some result when the loop exited (normally or on an RPC or
reply error) and none when the fuel ran out with the loop still
running. -/
def mempoolFetchLoopAux (env : SyncEnv) : Nat → List Transaction → List Bytes → List (List Bytes) × Option (Except Unit (List Transaction))
  | 0, _, _ => ([], none)
  | fuel + 1, mp, txsToRetrieve =>
    if txsToRetrieve.length = 0 then ([], some (.ok mp))
    else
      match (if MaxTransactionCountForRetrieving < txsToRetrieve.length then
              (txsToRetrieve.take MaxTransactionCountForRetrieving,
               txsToRetrieve.drop MaxTransactionCountForRetrieving)
             else (txsToRetrieve, txsToRetrieve)) with
      | (txHashes, rest) =>
        match env.getMempoolTxs txHashes with
        | .error e => ([txHashes], some (.error e))
        | .ok reply =>
          match reply.Error with
          | some _ => ([txHashes], some (.error ()))
          | none =>
            match mempoolFetchLoopAux env fuel (storeTxsLoop env mp reply.Transactions) rest with
            | (calls, res) => (txHashes :: calls, res)

/-- The sixteen lowercase hexadecimal digits, in value order. -/
def hexDigits : List Char := "0123456789abcdef".data

/-- One lowercase hexadecimal digit for a nibble value. -/
def hexDigitChar (n : Nat) : Char := hexDigits.getD n '0'

/-- The two lowercase hexadecimal characters of one byte, high nibble
first, as hex.EncodeToString produces per byte. -/
def hexEncodeByte (b : Nat) : List Char :=
  [hexDigitChar (b % 256 / 16), hexDigitChar (b % 16)]

/-- hex.EncodeToString: the lowercase hexadecimal string of a byte
slice. -/
def hexEncodeToString (bs : Bytes) : String :=
  String.mk (bs.map hexEncodeByte).flatten

/-- Environment of the block pool: the CBOR codec (third-party, may fail
on serialization) and the backend success of an individual lmdb Put. -/
structure PoolEnv where
  marshalBlock : Block → Option Bytes
  marshalHeader : BlockHeader → Option Bytes
  putOk : String → Bytes → Bool

/-- The lmdb database contents: an association list from key strings to
values, newest entry first (a later Put of the same key shadows the
older entry, matching lmdb overwrite semantics under find-first
lookup). -/
abbrev BlockStore := List (String × Bytes)

/-- Lookup in the database, find-first. -/
def getKV (s : BlockStore) (k : String) : Option Bytes :=
  (s.find? (fun e => e.1 = k)).map (fun e => e.2)

/-- The write-transaction body of BlockPool.StoreBlock (the closure at
pool lines 327-343): marshal the block, marshal the header, compute the
lowercase-hex block hash, then Put key "block_" + hash with the block
bytes and key "header_" + hash with the header bytes; any failure
returns the error to the transaction runner. -/
def storeBlockTxn (env : PoolEnv) (block : Block) (s : BlockStore) : Except Unit BlockStore :=
  match env.marshalBlock block with
  | none => .error ()
  | some data =>
    match env.marshalHeader block.Header with
    | none => .error ()
    | some headerData =>
      match hexEncodeToString block.Header.Hash with
      | blockHash =>
        if env.putOk ( "block_" ++ blockHash) data then
          if env.putOk ( "header_" ++ blockHash) headerData then
            .ok (( "header_" ++ blockHash, headerData) :: ( "block_" ++ blockHash, data) :: s)
          else .error ()
        else .error ()

/-- dbEnv.Update: run the transaction body; commit its final state on
success, abort (leaving the store untouched) when the body returns an
error. -/
def lmdbUpdate (s : BlockStore) (body : BlockStore → Except Unit BlockStore) : Except Unit Unit × BlockStore :=
  match body s with
  | .ok s2 => (.ok (), s2)
  | .error e => (.error e, s)

/-- BlockPool.StoreBlock (pool lines 326-344): one Update transaction
around the two-key write. -/
def StoreBlock (env : PoolEnv) (s : BlockStore) (block : Block) : Except Unit Unit × BlockStore :=
  lmdbUpdate s (storeBlockTxn env block)

/-- A delivered pub/sub message: the payload either type-asserts to a
Transaction or does not (the .(types2.Transaction) assertion at
sync_mgr.go line 250). -/
structure GenericMessage where
  Payload : Option Transaction
  deriving DecidableEq, Repr

/-- onNewTransaction (sync_mgr.go lines 249-265): assert the payload
type, check tx.ValidateHash(), then StoreTx; the first component records
the StoreTx call made (none when the handler returned before reaching
it), the second is the mempool after the handler; a StoreTx error is
only logged, leaving the mempool as StoreTx left it (unchanged), and the
handler returns no error in any case. -/
def onNewTransaction (env : SyncEnv) (mp : List Transaction) (message : GenericMessage) : Option Transaction × List Transaction :=
  match message.Payload with
  | none => (none, mp)
  | some tx =>
    if env.validateHash tx then
      match env.storeTx mp tx with
      | .ok mp2 => (some tx, mp2)
      | .error _ => (some tx, mp)
    else (none, mp)

/-- A concrete benign environment used to instantiate the theorems on
closed inputs: the height index is empty, proofs verify, hashes
validate, stores prepend, the peer is at height 1 and every RPC
succeeds. -/
def envT : SyncEnv :=
  { fetchHeaderByHeight := fun _ _ => none
  , verifyProof := fun _ _ _ => .ok true
  , validateHash := fun _ => true
  , storeBlockPool := fun st b => .ok (b :: st)
  , getLatestBlockHeight := fun _ => (0, none)
  , lastBlockHeightRPC := .ok { Height := 1, Error := none }
  , getRangeOfBlocks := fun _ _ => .ok { Blocks := [], FailedBlockHeights := [] }
  , getMempoolTxs := fun _ => .ok { Transactions := [], Error := none }
  , storeTx := fun mp t => .ok (t :: mp) }

/-- Claim C9: NewSyncManager sets initialSyncCompleted to false and no
code assigns it true, so the early-return guard of
doInitialBlockPoolSync never fires on a constructed manager: the full
body always runs. -/
theorem sync_flag_false_guard_never_fires :
    NewSyncManager.initialSyncCompleted = false ∧
    ∀ (env : SyncEnv) (st : PoolState),
      doInitialBlockPoolSync env NewSyncManager st = doInitialBlockPoolSyncBody env st :=
  ⟨rfl, fun _ _ => rfl⟩

/-- Claim C8: when GetLatestBlockHeight returns an error other than
ErrLatestHeightNil, doInitialBlockPoolSync neither returns nor handles
it: the run skips the genesis branch, drops the error and proceeds into
the peer-height phase with whatever height value came back alongside
the error, exactly as a run whose height read raised no error at all. -/
theorem latest_height_error_dropped (env1 env2 : SyncEnv) (st : PoolState) (h : Nat)
    (h1 : env1.getLatestBlockHeight st = (h, some PoolLatestErr.storageError))
    (h2 : env2.getLatestBlockHeight st = (h, none)) :
    doInitialBlockPoolSyncBody env1 st = afterGenesis env1 st h ∧
    doInitialBlockPoolSyncBody env2 st = afterGenesis env2 st h := by
  constructor
  · unfold doInitialBlockPoolSyncBody
    rw [h1]
    rfl
  · unfold doInitialBlockPoolSyncBody
    rw [h2]
    rfl

/-- Closed instance of latest_height_error_dropped: a height read of
(0, storage error) and one of (0, no error) both continue into the
peer-height phase at height 0. -/
theorem latest_height_error_dropped_witness :
    ({ envT with getLatestBlockHeight := fun _ => (0, some PoolLatestErr.storageError) } : SyncEnv).getLatestBlockHeight [] = (0, some PoolLatestErr.storageError) ∧
    envT.getLatestBlockHeight [] = (0, none) ∧
    (doInitialBlockPoolSyncBody { envT with getLatestBlockHeight := fun _ => (0, some PoolLatestErr.storageError) } [] =
      afterGenesis { envT with getLatestBlockHeight := fun _ => (0, some PoolLatestErr.storageError) } [] 0 ∧
     doInitialBlockPoolSyncBody envT [] = afterGenesis envT [] 0) :=
  ⟨rfl, rfl,
   latest_height_error_dropped
     { envT with getLatestBlockHeight := fun _ => (0, some PoolLatestErr.storageError) }
     envT [] 0 rfl rfl⟩

/-- Claim C10: for a block at height 0 the predecessor height computed
by processReceivedBlock is 0 - 1 in uint64 arithmetic, which wraps to
2 ^ 64 - 1; when the pool has no header at that height the block is
rejected with the predecessor-missing error, so the genesis block can
never be admitted through the validation pipeline. -/
theorem genesis_never_admitted (env : SyncEnv) (st : PoolState) (b : Block)
    (h0 : b.Header.Height = 0)
    (hfetch : env.fetchHeaderByHeight st (2 ^ 64 - 1) = none) :
    pred64 b.Header.Height = 2 ^ 64 - 1 ∧
    processReceivedBlock env st b = .error .predecessorMissing := by
  have hp : pred64 b.Header.Height = 2 ^ 64 - 1 := by
    rw [h0]
    rfl
  have hv : validateBlock env st b = .error .predecessorMissing := by
    unfold validateBlock
    rw [hp, hfetch]
  exact ⟨hp, by unfold processReceivedBlock; rw [hv]⟩

/-- Closed instance of genesis_never_admitted at the genesis block
itself over the empty pool. -/
theorem genesis_never_admitted_witness :
    GenesisBlock.Header.Height = 0 ∧
    envT.fetchHeaderByHeight [] (2 ^ 64 - 1) = none ∧
    (pred64 GenesisBlock.Header.Height = 2 ^ 64 - 1 ∧
     processReceivedBlock envT [] GenesisBlock = .error .predecessorMissing) :=
  ⟨rfl, rfl, genesis_never_admitted envT [] GenesisBlock rfl rfl⟩

/-- The transaction checks read only the verifier and the hash check,
so replacing the store function leaves them unchanged. -/
theorem checkTransactions_store_congr (env : SyncEnv) (f : PoolState → Block → Except Unit PoolState)
    (blockHash : Bytes) (txs : List Transaction) :
    checkTransactions { env with storeBlockPool := f } blockHash txs =
    checkTransactions env blockHash txs := by
  induction txs with
  | nil => rfl
  | cons tx rest ih =>
    cases hm : tx.MerkleProof with
    | none => simp [checkTransactions, hm]
    | some prf =>
      cases hv : env.verifyProof tx.Hash prf blockHash with
      | error u => simp [checkTransactions, hm, hv]
      | ok verified =>
        cases verified with
        | false => simp [checkTransactions, hm, hv]
        | true => simp [checkTransactions, hm, hv, ih]

/-- The validation section never reads the store function. -/
theorem validateBlock_store_congr (env : SyncEnv) (f : PoolState → Block → Except Unit PoolState)
    (st : PoolState) (b : Block) :
    validateBlock { env with storeBlockPool := f } st b = validateBlock env st b := by
  cases hf : env.fetchHeaderByHeight st (pred64 b.Header.Height) with
  | none => simp [validateBlock, hf]
  | some prev =>
    by_cases hl : b.Header.LastHash = prev.Hash
    · cases hv : env.verifyProof prev.Hash b.Header.LastHashProof b.Header.Hash with
      | error u => simp [validateBlock, hf, hl, hv]
      | ok verified =>
        cases verified with
        | false => simp [validateBlock, hf, hl, hv]
        | true => simp [validateBlock, hf, hl, hv, checkTransactions_store_congr]
    · simp [validateBlock, hf, hl]

/-- Claim C1 (amended): processReceivedBlock hands the block to
StoreBlock exactly when the whole validation section succeeds
(predecessor header found at Height - 1, LastHash byte-equal to the
predecessor hash, LastHashProof verifying the predecessor hash under
the block header hash as root, and every transaction carrying a merkle
proof that verifies its hash under the block header hash and passing
ValidateHash); on any validation error that error is returned and the
result does not depend on the store function at all, so no block
failing a check is ever stored. -/
theorem process_block_store_gated (env : SyncEnv) (st : PoolState) (b : Block) :
    (∀ st2, processReceivedBlock env st b = .ok st2 →
      validateBlock env st b = .ok () ∧ env.storeBlockPool st b = .ok st2) ∧
    (∀ e, validateBlock env st b = .error e →
      ∀ f, processReceivedBlock { env with storeBlockPool := f } st b = .error e) := by
  constructor
  · intro st2 h
    cases hv : validateBlock env st b with
    | error e => simp [processReceivedBlock, hv] at h
    | ok u =>
      cases u
      cases hs : env.storeBlockPool st b with
      | error e => simp [processReceivedBlock, hv, hs] at h
      | ok st3 =>
        simp [processReceivedBlock, hv, hs] at h
        subst h
        exact ⟨rfl, rfl⟩
  · intro e he f
    have hve : validateBlock { env with storeBlockPool := f } st b = .error e := by
      rw [validateBlock_store_congr]
      exact he
    simp [processReceivedBlock, hve]

/-- The last-hash verification step in the direction claim C1 words it:
the proof is checked with the block's own header hash as the leaf datum
and the predecessor hash as the root (compare validateBlock, which
mirrors the source call and passes the two hashes the other way
around). -/
def claimLastHashCheck (env : SyncEnv) (prev : BlockHeader) (b : Block) : Bool :=
  match env.verifyProof b.Header.Hash b.Header.LastHashProof prev.Hash with
  | .ok true => true
  | _ => false

/-- Predecessor header of the counterexample chain. -/
def cexPrevHeader : BlockHeader :=
  { Height := 0, Hash := [1], LastHash := [], LastHashProof := [] }

/-- Counterexample block: LastHash matches the predecessor hash and its
proof verifies in the direction the source checks. -/
def cexBlockC1 : Block :=
  { Header := { Height := 1, Hash := [2], LastHash := [1], LastHashProof := [[9]] }, Data := [] }

/-- Counterexample environment: the verifier accepts exactly the
argument pattern the source emits for the last-hash check (leaf [1],
root [2]) and rejects the reversed pattern the claim describes. -/
def cexEnvC1 : SyncEnv :=
  { envT with
    fetchHeaderByHeight := fun _ hh => if hh = 0 then some cexPrevHeader else none
  , verifyProof := fun d _ r => .ok (decide (d = [1] ∧ r = [2])) }

/-- Claim C1 as stated is false on the code: this block is stored by
processReceivedBlock even though its last_hash_proof does not verify
b.header.hash under the predecessor hash (the direction the claim
asserts); the source verifies the predecessor hash under b.header.hash
instead. -/
theorem process_block_claim_direction_counterexample :
    processReceivedBlock cexEnvC1 [] cexBlockC1 = .ok [cexBlockC1] ∧
    cexEnvC1.fetchHeaderByHeight [] (pred64 cexBlockC1.Header.Height) = some cexPrevHeader ∧
    claimLastHashCheck cexEnvC1 cexPrevHeader cexBlockC1 = false :=
  ⟨rfl, rfl, rfl⟩

/-- Closed instance of process_block_store_gated on a block every check
of which passes. -/
theorem process_block_store_gated_witness :
    processReceivedBlock cexEnvC1 [] cexBlockC1 = .ok [cexBlockC1] ∧
    (validateBlock cexEnvC1 [] cexBlockC1 = .ok () ∧
     cexEnvC1.storeBlockPool [] cexBlockC1 = .ok [cexBlockC1]) :=
  ⟨rfl, (process_block_store_gated cexEnvC1 [] cexBlockC1).1 [cexBlockC1] rfl⟩

/-- Claim C6: onNewTransaction reaches StoreTx exactly for messages
whose payload type-asserts to a Transaction whose ValidateHash holds;
whether StoreTx itself succeeds or fails influences neither the
decision to call it nor the handler returning normally. -/
theorem on_new_transaction_gate (env : SyncEnv) (mp : List Transaction) (message : GenericMessage) (tx : Transaction) :
    ((onNewTransaction env mp message).1 = some tx ↔
      message.Payload = some tx ∧ env.validateHash tx = true) ∧
    (∀ f, (onNewTransaction { env with storeTx := f } mp message).1 = (onNewTransaction env mp message).1) ∧
    ((onNewTransaction env mp message).1 = none → (onNewTransaction env mp message).2 = mp) := by
  refine ⟨?_, ?_, ?_⟩
  · cases hm : message.Payload with
    | none => simp [onNewTransaction, hm]
    | some t0 =>
      by_cases hv : env.validateHash t0
      · cases hs : env.storeTx mp t0 with
        | ok mp2 =>
          simp only [onNewTransaction, hm, hv, if_true, hs]
          constructor
          · rintro h
            cases h
            exact ⟨rfl, hv⟩
          · rintro ⟨h, _⟩
            cases h
            rfl
        | error u =>
          simp only [onNewTransaction, hm, hv, if_true, hs]
          constructor
          · rintro h
            cases h
            exact ⟨rfl, hv⟩
          · rintro ⟨h, _⟩
            cases h
            rfl
      · simp only [onNewTransaction, hm, hv, if_false]
        simp only [Bool.false_eq_true] at hv
        constructor
        · rintro h
          cases h
        · rintro ⟨h, hv2⟩
          cases h
          exact absurd hv2 hv
  · intro f
    cases hm : message.Payload with
    | none => simp [onNewTransaction, hm]
    | some t0 =>
      by_cases hv : env.validateHash t0
      · cases hs1 : f mp t0 <;> cases hs2 : env.storeTx mp t0 <;>
          simp [onNewTransaction, hm, hv, hs1, hs2]
      · simp [onNewTransaction, hm, hv]
  · cases hm : message.Payload with
    | none => simp [onNewTransaction, hm]
    | some t0 =>
      by_cases hv : env.validateHash t0
      · cases hs : env.storeTx mp t0 <;> simp [onNewTransaction, hm, hv, hs]
      · simp [onNewTransaction, hm, hv]

/-- Closed instance of on_new_transaction_gate: a valid transaction in
the payload is the one handed to StoreTx. -/
theorem on_new_transaction_gate_witness :
    (onNewTransaction envT [] { Payload := some { Hash := [5], MerkleProof := none } }).1 =
      some { Hash := [5], MerkleProof := none } :=
  (on_new_transaction_gate envT [] { Payload := some { Hash := [5], MerkleProof := none } }
    { Hash := [5], MerkleProof := none }).1.mpr ⟨rfl, rfl⟩

/-- Claim C7: the per-block loop hands every accumulated block to
processReceivedBlock regardless of earlier failures (one result entry
per block), and whenever doInitialBlockPoolSync reaches that loop (the
height read raised no error and both RPC stages succeeded) the whole
procedure returns without error, with the pool as the loop left it. -/
theorem process_loop_continues (env : SyncEnv) (st : PoolState) (blocks : List Block) :
    ((processBlocksLoop env st blocks).2.length = blocks.length) ∧
    (∀ L H, env.getLatestBlockHeight st = (L, none) →
      env.lastBlockHeightRPC = .ok { Height := H, Error := none } →
      L < H →
      (fetchLoop env L (H - L)).2 = .ok blocks →
      doInitialBlockPoolSyncBody env st = .ok (processBlocksLoop env st blocks).1) := by
  constructor
  · induction blocks generalizing st with
    | nil => rfl
    | cons b rest ih =>
      cases hp : processReceivedBlock env st b with
      | ok st2 =>
        cases hr : processBlocksLoop env st2 rest with
        | mk stf rs =>
          have := ih st2
          rw [hr] at this
          simp [processBlocksLoop, hp, hr, this]
      | error e =>
        cases hr : processBlocksLoop env st rest with
        | mk stf rs =>
          have := ih st
          rw [hr] at this
          simp [processBlocksLoop, hp, hr, this]
  · intro L H hlat hrpc hlt hfetch
    unfold doInitialBlockPoolSyncBody
    rw [hlat]
    show afterGenesis env st L = _
    unfold afterGenesis
    rw [hrpc]
    show (if L < H then _ else _) = _
    rw [if_pos hlt, hfetch]

/-- Environment for the closed instance of process_loop_continues: the
peer serves one block at height 1 whose predecessor lookup fails, so
its processing errors, yet the sync returns without error. -/
def envC7 : SyncEnv :=
  { envT with
    getRangeOfBlocks := fun _ _ =>
      .ok { Blocks := [{ Header := { Height := 1, Hash := [3], LastHash := [9], LastHashProof := [] }, Data := [] }],
            FailedBlockHeights := [] } }

/-- The single block served by envC7. -/
def blkC7 : Block :=
  { Header := { Height := 1, Hash := [3], LastHash := [9], LastHashProof := [] }, Data := [] }

/-- Closed instance of process_loop_continues: the served block fails
validation, one result entry is recorded, and the procedure still
returns ok. -/
theorem process_loop_continues_witness :
    envC7.getLatestBlockHeight [] = (0, none) ∧
    envC7.lastBlockHeightRPC = .ok { Height := 1, Error := none } ∧
    (0 : Nat) < 1 ∧
    (fetchLoop envC7 0 (1 - 0)).2 = .ok [blkC7] ∧
    (processBlocksLoop envC7 [] [blkC7]).2.length = [blkC7].length ∧
    doInitialBlockPoolSyncBody envC7 [] = .ok (processBlocksLoop envC7 [] [blkC7]).1 :=
  ⟨rfl, rfl, Nat.one_pos, rfl,
   (process_loop_continues envC7 [] [blkC7]).1,
   (process_loop_continues envC7 [] [blkC7]).2 0 1 rfl rfl Nat.one_pos rfl⟩

/-- Every character produced by hexDigitChar is one of the sixteen
lowercase hexadecimal digits. -/
theorem hexDigitChar_mem (n : Nat) : hexDigitChar n ∈ hexDigits := by
  unfold hexDigitChar
  rcases Nat.lt_or_ge n 16 with hlt | hge
  · interval_cases n <;> decide
  · rw [List.getD_eq_default]
    · decide
    · have hlen : hexDigits.length = 16 := rfl
      omega

/-- Every character of a hex-encoded byte string is a lowercase
hexadecimal digit. -/
theorem hexEncodeToString_chars (bs : Bytes) :
    ∀ c, c ∈ (hexEncodeToString bs).data → c ∈ hexDigits := by
  intro c hc
  have hc2 : c ∈ (bs.map hexEncodeByte).flatten := hc
  rw [List.mem_flatten] at hc2
  rcases hc2 with ⟨piece, hpiece, hcp⟩
  rw [List.mem_map] at hpiece
  rcases hpiece with ⟨b, _, rfl⟩
  simp only [hexEncodeByte, List.mem_cons, List.not_mem_nil, or_false] at hcp
  rcases hcp with rfl | rfl <;> exact hexDigitChar_mem _

/-- Claim C5: a successful StoreBlock commits exactly the two entries
block_(hex hash) with the CBOR block bytes and header_(hex hash) with
the CBOR header bytes, hex being the lowercase encoding of the header
hash, on top of the untouched prior store; any serialization or put
failure makes StoreBlock return an error with the store unchanged (the
transaction is aborted). -/
theorem store_block_two_keys (env : PoolEnv) (s : BlockStore) (block : Block) :
    (∀ s2, StoreBlock env s block = (.ok (), s2) →
      ∃ data headerData,
        env.marshalBlock block = some data ∧
        env.marshalHeader block.Header = some headerData ∧
        s2 = ( "header_" ++ hexEncodeToString block.Header.Hash, headerData) ::
             ( "block_" ++ hexEncodeToString block.Header.Hash, data) :: s) ∧
    ((StoreBlock env s block).1 ≠ .ok () → (StoreBlock env s block).2 = s) ∧
    (∀ c, c ∈ (hexEncodeToString block.Header.Hash).data → c ∈ hexDigits) := by
  refine ⟨?_, ?_, hexEncodeToString_chars block.Header.Hash⟩
  · intro s2 h
    cases hmb : env.marshalBlock block with
    | none => simp [StoreBlock, lmdbUpdate, storeBlockTxn, hmb] at h
    | some data =>
      cases hmh : env.marshalHeader block.Header with
      | none => simp [StoreBlock, lmdbUpdate, storeBlockTxn, hmb, hmh] at h
      | some headerData =>
        by_cases hp1 : env.putOk ( "block_" ++ hexEncodeToString block.Header.Hash) data
        · by_cases hp2 : env.putOk ( "header_" ++ hexEncodeToString block.Header.Hash) headerData
          · simp [StoreBlock, lmdbUpdate, storeBlockTxn, hmb, hmh, hp1, hp2] at h
            exact ⟨data, headerData, rfl, rfl, h.symm⟩
          · simp [StoreBlock, lmdbUpdate, storeBlockTxn, hmb, hmh, hp1, hp2] at h
        · simp [StoreBlock, lmdbUpdate, storeBlockTxn, hmb, hmh, hp1] at h
  · intro h
    cases hmb : env.marshalBlock block with
    | none => simp [StoreBlock, lmdbUpdate, storeBlockTxn, hmb]
    | some data =>
      cases hmh : env.marshalHeader block.Header with
      | none => simp [StoreBlock, lmdbUpdate, storeBlockTxn, hmb, hmh]
      | some headerData =>
        by_cases hp1 : env.putOk ( "block_" ++ hexEncodeToString block.Header.Hash) data
        · by_cases hp2 : env.putOk ( "header_" ++ hexEncodeToString block.Header.Hash) headerData
          · exact absurd (by simp [StoreBlock, lmdbUpdate, storeBlockTxn, hmb, hmh, hp1, hp2]) h
          · simp [StoreBlock, lmdbUpdate, storeBlockTxn, hmb, hmh, hp1, hp2]
        · simp [StoreBlock, lmdbUpdate, storeBlockTxn, hmb, hmh, hp1]

/-- Pool environment for the closed StoreBlock instance: serialization
yields [7] for the block and [8] for the header and every put
succeeds. -/
def envP : PoolEnv :=
  { marshalBlock := fun _ => some [7]
  , marshalHeader := fun _ => some [8]
  , putOk := fun _ _ => true }

/-- Closed instance of store_block_two_keys at the genesis block over
the empty store: exactly the keys header_00 and block_00 appear. -/
theorem store_block_two_keys_witness :
    StoreBlock envP [] GenesisBlock = (.ok (), [( "header_00", [8]), ( "block_00", [7])]) ∧
    (∃ data headerData,
      envP.marshalBlock GenesisBlock = some data ∧
      envP.marshalHeader GenesisBlock.Header = some headerData ∧
      [(( "header_00" : String), ([8] : Bytes)), ( "block_00", [7])] =
        ( "header_" ++ hexEncodeToString GenesisBlock.Header.Hash, headerData) ::
        ( "block_" ++ hexEncodeToString GenesisBlock.Header.Hash, data) :: ([] : BlockStore)) :=
  ⟨rfl, (store_block_two_keys envP [] GenesisBlock).1 [( "header_00", [8]), ( "block_00", [7])] rfl⟩

/-- addedVal is at most the remaining count, at most the cap, and
positive whenever heights remain. -/
theorem addedValFn_spec (hc : Nat) :
    addedValFn hc ≤ hc ∧ addedValFn hc ≤ MaxBlockCountForRetrieving ∧ (hc ≠ 0 → 1 ≤ addedValFn hc) := by
  unfold addedValFn MaxBlockCountForRetrieving
  split <;> omega

/-- The trace of the batch-fetch loop is empty or starts with the batch
(tc + 1, tc + addedVal). -/
theorem fetchLoopAux_shape (env : SyncEnv) (fuel tc hc : Nat) :
    (fetchLoopAux env fuel tc hc).1 = [] ∨
    ∃ rest, (fetchLoopAux env fuel tc hc).1 = (tc + 1, tc + addedValFn hc) :: rest := by
  cases fuel with
  | zero => exact Or.inl rfl
  | succ fuel =>
    by_cases h0 : hc = 0
    · exact Or.inl (by simp [fetchLoopAux, h0])
    · right
      cases hcall : env.getRangeOfBlocks (tc + 1) (tc + addedValFn hc) with
      | error e => exact ⟨[], by simp [fetchLoopAux, h0, hcall]⟩
      | ok reply =>
        cases hrec : fetchLoopAux env fuel (tc + addedValFn hc) (hc - addedValFn hc) with
        | mk reqs res =>
          cases res with
          | error e2 => exact ⟨reqs, by simp [fetchLoopAux, h0, hcall, hrec]⟩
          | ok bs => exact ⟨reqs, by simp [fetchLoopAux, h0, hcall, hrec]⟩

/-- Every issued batch of the fetch loop lies inside (tc, tc + hc],
is a well-formed range, and spans at most the cap. -/
theorem fetchLoopAux_bounds (env : SyncEnv) :
    ∀ fuel tc hc p, p ∈ (fetchLoopAux env fuel tc hc).1 →
      tc + 1 ≤ p.1 ∧ p.1 ≤ p.2 ∧ p.2 ≤ tc + hc ∧ p.2 + 1 ≤ p.1 + MaxBlockCountForRetrieving := by
  intro fuel
  induction fuel with
  | zero =>
    intro tc hc p hp
    simp [fetchLoopAux] at hp
  | succ fuel ih =>
    intro tc hc p hp
    by_cases h0 : hc = 0
    · simp [fetchLoopAux, h0] at hp
    · obtain ⟨ha1, ha2, ha3⟩ := addedValFn_spec hc
      have ha4 := ha3 h0
      cases hcall : env.getRangeOfBlocks (tc + 1) (tc + addedValFn hc) with
      | error e =>
        have htr : (fetchLoopAux env (fuel + 1) tc hc).1 = [(tc + 1, tc + addedValFn hc)] := by
          simp [fetchLoopAux, h0, hcall]
        rw [htr] at hp
        simp at hp
        subst hp
        refine ⟨Nat.le_refl _, ?_, ?_, ?_⟩ <;> simp <;> omega
      | ok reply =>
        cases hrec : fetchLoopAux env fuel (tc + addedValFn hc) (hc - addedValFn hc) with
        | mk reqs res =>
          have htr : (fetchLoopAux env (fuel + 1) tc hc).1 = (tc + 1, tc + addedValFn hc) :: reqs := by
            cases res with
            | error e2 => simp [fetchLoopAux, h0, hcall, hrec]
            | ok bs => simp [fetchLoopAux, h0, hcall, hrec]
          rw [htr] at hp
          rcases List.mem_cons.mp hp with rfl | hp2
          · refine ⟨Nat.le_refl _, ?_, ?_, ?_⟩ <;> simp <;> omega
          · have hb := ih (tc + addedValFn hc) (hc - addedValFn hc) p (by rw [hrec]; exact hp2)
            obtain ⟨hb1, hb2, hb3, hb4⟩ := hb
            refine ⟨by omega, hb2, by omega, hb4⟩

/-- Consecutive issued batches chain: each From is the previous To plus
one. -/
theorem fetchLoopAux_chain (env : SyncEnv) :
    ∀ fuel tc hc, List.Chain' (fun p q => q.1 = p.2 + 1) (fetchLoopAux env fuel tc hc).1 := by
  intro fuel
  induction fuel with
  | zero => intro tc hc; simp [fetchLoopAux]
  | succ fuel ih =>
    intro tc hc
    by_cases h0 : hc = 0
    · simp [fetchLoopAux, h0]
    · cases hcall : env.getRangeOfBlocks (tc + 1) (tc + addedValFn hc) with
      | error e =>
        have htr : (fetchLoopAux env (fuel + 1) tc hc).1 = [(tc + 1, tc + addedValFn hc)] := by
          simp [fetchLoopAux, h0, hcall]
        rw [htr]
        simp
      | ok reply =>
        cases hrec : fetchLoopAux env fuel (tc + addedValFn hc) (hc - addedValFn hc) with
        | mk reqs res =>
          have htr : (fetchLoopAux env (fuel + 1) tc hc).1 = (tc + 1, tc + addedValFn hc) :: reqs := by
            cases res with
            | error e2 => simp [fetchLoopAux, h0, hcall, hrec]
            | ok bs => simp [fetchLoopAux, h0, hcall, hrec]
          rw [htr]
          rw [List.chain'_cons']
          constructor
          · intro q hq
            have hsh := fetchLoopAux_shape env fuel (tc + addedValFn hc) (hc - addedValFn hc)
            rw [hrec] at hsh
            rcases hsh with hemp | ⟨rest, hcons⟩
            · have hemp2 : reqs = [] := hemp
              rw [hemp2] at hq
              simp at hq
            · have hcons2 : reqs = (tc + addedValFn hc + 1, tc + addedValFn hc + addedValFn (hc - addedValFn hc)) :: rest := hcons
              rw [hcons2] at hq
              simp at hq
              rw [← hq]
          · have := ih (tc + addedValFn hc) (hc - addedValFn hc)
            rw [hrec] at this
            exact this

/-- Issued batches are pairwise disjoint with strictly increasing
endpoints. -/
theorem fetchLoopAux_pairwise (env : SyncEnv) :
    ∀ fuel tc hc, List.Pairwise (fun p q => p.2 < q.1 ∧ p.1 < q.1) (fetchLoopAux env fuel tc hc).1 := by
  intro fuel
  induction fuel with
  | zero => intro tc hc; simp [fetchLoopAux]
  | succ fuel ih =>
    intro tc hc
    by_cases h0 : hc = 0
    · simp [fetchLoopAux, h0]
    · obtain ⟨ha1, ha2, ha3⟩ := addedValFn_spec hc
      have ha4 := ha3 h0
      cases hcall : env.getRangeOfBlocks (tc + 1) (tc + addedValFn hc) with
      | error e =>
        have htr : (fetchLoopAux env (fuel + 1) tc hc).1 = [(tc + 1, tc + addedValFn hc)] := by
          simp [fetchLoopAux, h0, hcall]
        rw [htr]
        simp
      | ok reply =>
        cases hrec : fetchLoopAux env fuel (tc + addedValFn hc) (hc - addedValFn hc) with
        | mk reqs res =>
          have htr : (fetchLoopAux env (fuel + 1) tc hc).1 = (tc + 1, tc + addedValFn hc) :: reqs := by
            cases res with
            | error e2 => simp [fetchLoopAux, h0, hcall, hrec]
            | ok bs => simp [fetchLoopAux, h0, hcall, hrec]
          rw [htr]
          rw [List.pairwise_cons]
          constructor
          · intro q hq
            have hb := fetchLoopAux_bounds env fuel (tc + addedValFn hc) (hc - addedValFn hc) q (by rw [hrec]; exact hq)
            obtain ⟨hb1, hb2, hb3, hb4⟩ := hb
            constructor <;> simp <;> omega
          · have := ih (tc + addedValFn hc) (hc - addedValFn hc)
            rw [hrec] at this
            exact this

/-- When no RPC call fails and the fuel covers the count, the issued
batches cover exactly the interval (tc, tc + hc]. -/
theorem fetchLoopAux_coverage (env : SyncEnv)
    (hok : ∀ a b, ∃ r, env.getRangeOfBlocks a b = .ok r) :
    ∀ fuel tc hc, hc ≤ fuel → ∀ h,
      ((∃ p, p ∈ (fetchLoopAux env fuel tc hc).1 ∧ p.1 ≤ h ∧ h ≤ p.2) ↔ (tc + 1 ≤ h ∧ h ≤ tc + hc)) := by
  intro fuel
  induction fuel with
  | zero =>
    intro tc hc hle h
    have h0 : hc = 0 := Nat.le_zero.mp hle
    subst h0
    simp [fetchLoopAux]
    omega
  | succ fuel ih =>
    intro tc hc hle h
    by_cases h0 : hc = 0
    · subst h0
      simp [fetchLoopAux]
      omega
    · obtain ⟨ha1, ha2, ha3⟩ := addedValFn_spec hc
      have ha4 := ha3 h0
      obtain ⟨reply, hcall⟩ := hok (tc + 1) (tc + addedValFn hc)
      cases hrec : fetchLoopAux env fuel (tc + addedValFn hc) (hc - addedValFn hc) with
      | mk reqs res =>
        have htr : (fetchLoopAux env (fuel + 1) tc hc).1 = (tc + 1, tc + addedValFn hc) :: reqs := by
          cases res with
          | error e2 => simp [fetchLoopAux, h0, hcall, hrec]
          | ok bs => simp [fetchLoopAux, h0, hcall, hrec]
        have hih := ih (tc + addedValFn hc) (hc - addedValFn hc) (by omega) h
        rw [hrec] at hih
        rw [htr]
        constructor
        · rintro ⟨p, hp, hp1, hp2⟩
          rcases List.mem_cons.mp hp with rfl | hmem
          · simp at hp1 hp2
            omega
          · have := hih.mp ⟨p, hmem, hp1, hp2⟩
            omega
        · rintro ⟨hh1, hh2⟩
          by_cases hcase : h ≤ tc + addedValFn hc
          · exact ⟨(tc + 1, tc + addedValFn hc), List.mem_cons_self _ _, hh1, hcase⟩
          · obtain ⟨p, hmem, hp1, hp2⟩ := hih.mpr (by omega)
            exact ⟨p, List.mem_cons_of_mem _ hmem, hp1, hp2⟩

/-- The GetRangeOfBlocks argument pairs issued by initial block-pool
sync when the local height is localHeight and the peer reported
peerHeight. -/
def issuedRanges (env : SyncEnv) (localHeight peerHeight : Nat) : List (Nat × Nat) :=
  (fetchLoop env localHeight (peerHeight - localHeight)).1

/-- Claim C3: with the peer ahead of the local height and no RPC
failure, the issued GetRangeOfBlocks requests start at
localHeight + 1, every From is the previous To plus one, the From
values are strictly increasing, and the requested ranges cover exactly
the interval from localHeight + 1 up to the peer height, without gaps
or overlaps. -/
theorem ranges_ascending_cover (env : SyncEnv) (L H : Nat) (hLH : L < H)
    (hok : ∀ a b, ∃ r, env.getRangeOfBlocks a b = .ok r) :
    ((issuedRanges env L H).head?.map Prod.fst = some (L + 1)) ∧
    List.Chain' (fun p q => q.1 = p.2 + 1) (issuedRanges env L H) ∧
    List.Pairwise (fun p q => p.1 < q.1) (issuedRanges env L H) ∧
    (∀ h, (∃ p, p ∈ issuedRanges env L H ∧ p.1 ≤ h ∧ h ≤ p.2) ↔ (L + 1 ≤ h ∧ h ≤ H)) := by
  have hcov0 := fetchLoopAux_coverage env hok (H - L) L (H - L) (Nat.le_refl _)
  have hcov : ∀ h, (∃ p, p ∈ issuedRanges env L H ∧ p.1 ≤ h ∧ h ≤ p.2) ↔ (L + 1 ≤ h ∧ h ≤ H) := by
    intro h
    have harith : (L + 1 ≤ h ∧ h ≤ L + (H - L)) ↔ (L + 1 ≤ h ∧ h ≤ H) := by omega
    exact (hcov0 h).trans harith
  refine ⟨?_, fetchLoopAux_chain env (H - L) L (H - L), ?_, hcov⟩
  · have hne : issuedRanges env L H ≠ [] := by
      intro hemp
      have := (hcov (L + 1)).mpr (by omega)
      rw [hemp] at this
      simp at this
    have hsh := fetchLoopAux_shape env (H - L) L (H - L)
    rcases hsh with hemp | ⟨rest, hcons⟩
    · exact absurd hemp hne
    · show ((fetchLoop env L (H - L)).1.head?.map Prod.fst) = some (L + 1)
      unfold fetchLoop
      rw [hcons]
      rfl
  · exact (fetchLoopAux_pairwise env (H - L) L (H - L)).imp (fun hpq => by omega)

/-- Closed instance of ranges_ascending_cover with the peer two heights
ahead: the single request (1, 2) covers exactly heights 1 and 2. -/
theorem ranges_ascending_cover_witness :
    (0 : Nat) < 2 ∧
    (∀ a b, ∃ r, envT.getRangeOfBlocks a b = .ok r) ∧
    (((issuedRanges envT 0 2).head?.map Prod.fst = some (0 + 1)) ∧
     List.Chain' (fun p q => q.1 = p.2 + 1) (issuedRanges envT 0 2) ∧
     List.Pairwise (fun p q => p.1 < q.1) (issuedRanges envT 0 2) ∧
     (∀ h, (∃ p, p ∈ issuedRanges envT 0 2 ∧ p.1 ≤ h ∧ h ≤ p.2) ↔ (0 + 1 ≤ h ∧ h ≤ 2))) :=
  ⟨by omega, fun a b => ⟨{ Blocks := [], FailedBlockHeights := [] }, rfl⟩,
   ranges_ascending_cover envT 0 2 (by omega)
     (fun a b => ⟨{ Blocks := [], FailedBlockHeights := [] }, rfl⟩)⟩

/-- Every Items argument issued by the mempool batching loop holds at
most the cap of hashes: the split branch requests a take of the cap and
the other branch requests a list already at or below the cap. -/
theorem mempool_calls_bounded (env : SyncEnv) :
    ∀ fuel mp txs items, items ∈ (mempoolFetchLoopAux env fuel mp txs).1 →
      items.length ≤ MaxTransactionCountForRetrieving := by
  intro fuel
  induction fuel with
  | zero =>
    intro mp txs items h
    simp [mempoolFetchLoopAux] at h
  | succ fuel ih =>
    intro mp txs items h
    by_cases h0 : txs.length = 0
    · simp [mempoolFetchLoopAux, h0] at h
    · by_cases hgt : MaxTransactionCountForRetrieving < txs.length
      · have hlen : (txs.take MaxTransactionCountForRetrieving).length ≤ MaxTransactionCountForRetrieving := by
          simp [List.length_take]
        cases hcall : env.getMempoolTxs (txs.take MaxTransactionCountForRetrieving) with
        | error e =>
          simp only [mempoolFetchLoopAux, if_neg h0, if_pos hgt, hcall] at h
          simp at h
          rw [h]
          exact hlen
        | ok reply =>
          cases herr : reply.Error with
          | some u =>
            simp only [mempoolFetchLoopAux, if_neg h0, if_pos hgt, hcall, herr] at h
            simp at h
            rw [h]
            exact hlen
          | none =>
            cases hrec : mempoolFetchLoopAux env fuel (storeTxsLoop env mp reply.Transactions) (txs.drop MaxTransactionCountForRetrieving) with
            | mk calls res =>
              simp only [mempoolFetchLoopAux, if_neg h0, if_pos hgt, hcall, herr, hrec] at h
              simp at h
              rcases h with rfl | hmem
              · exact hlen
              · exact ih _ _ items (by rw [hrec]; exact hmem)
      · have hlen : txs.length ≤ MaxTransactionCountForRetrieving := by omega
        cases hcall : env.getMempoolTxs txs with
        | error e =>
          simp only [mempoolFetchLoopAux, if_neg h0, if_neg hgt, hcall] at h
          simp at h
          rw [h]
          exact hlen
        | ok reply =>
          cases herr : reply.Error with
          | some u =>
            simp only [mempoolFetchLoopAux, if_neg h0, if_neg hgt, hcall, herr] at h
            simp at h
            rw [h]
            exact hlen
          | none =>
            cases hrec : mempoolFetchLoopAux env fuel (storeTxsLoop env mp reply.Transactions) txs with
            | mk calls res =>
              simp only [mempoolFetchLoopAux, if_neg h0, if_neg hgt, hcall, herr, hrec] at h
              simp at h
              rcases h with rfl | hmem
              · exact hlen
              · exact ih _ _ items (by rw [hrec]; exact hmem)

/-- Claim C4: every GetRangeOfBlocks request issued by initial
block-pool sync covers at most MaxBlockCountForRetrieving heights, and
every GetMempoolTxs request issued by initial mempool sync carries at
most MaxTransactionCountForRetrieving hashes. -/
theorem batch_size_bounds (env : SyncEnv) (fuel tc hc : Nat) (mp : List Transaction) (txs : List Bytes) :
    (∀ p, p ∈ (fetchLoopAux env fuel tc hc).1 →
      p.1 ≤ p.2 ∧ p.2 + 1 ≤ p.1 + MaxBlockCountForRetrieving) ∧
    (∀ items, items ∈ (mempoolFetchLoopAux env fuel mp txs).1 →
      items.length ≤ MaxTransactionCountForRetrieving) := by
  constructor
  · intro p hp
    have hb := fetchLoopAux_bounds env fuel tc hc p hp
    exact ⟨hb.2.1, hb.2.2.2⟩
  · exact mempool_calls_bounded env fuel mp txs

/-- Closed instance of batch_size_bounds: the request (1, 1) spans one
height and the single-hash mempool request carries one hash. -/
theorem batch_size_bounds_witness :
    ((1, 1) ∈ (fetchLoopAux envT 1 0 1).1 ∧
     ((1 : Nat) ≤ 1 ∧ 1 + 1 ≤ 1 + MaxBlockCountForRetrieving)) ∧
    ([[0]] ∈ (mempoolFetchLoopAux envT 1 [] [[0]]).1 ∧
     ([[0]] : List Bytes).length ≤ MaxTransactionCountForRetrieving) :=
  ⟨⟨by decide, (batch_size_bounds envT 1 0 1 [] [[0]]).1 (1, 1) (by decide)⟩,
   ⟨by decide, (batch_size_bounds envT 1 0 1 [] [[0]]).2 [[0]] (by decide)⟩⟩

/-- Claim C2 (code bug): when every GetMempoolTxs RPC succeeds with an
empty reply error, the batching loop of initial mempool sync never
terminates on any non-empty hash list, for any amount of fuel: the else
branch of the split never removes the requested hashes from
txsToRetrieve, so the loop re-issues the final partial batch forever
instead of popping each hash exactly once. -/
theorem mempool_loop_never_exits (env : SyncEnv) :
    ∀ fuel mp txs, txs ≠ [] →
    (∀ items, ∃ r, env.getMempoolTxs items = .ok r ∧ r.Error = none) →
    (mempoolFetchLoopAux env fuel mp txs).2 = none := by
  intro fuel
  induction fuel with
  | zero =>
    intro mp txs hne hok
    rfl
  | succ fuel ih =>
    intro mp txs hne hok
    have h0 : ¬txs.length = 0 := by
      intro hlen
      exact hne (List.length_eq_zero.mp hlen)
    by_cases hgt : MaxTransactionCountForRetrieving < txs.length
    · obtain ⟨reply, hcall, herr⟩ := hok (txs.take MaxTransactionCountForRetrieving)
      have hrest : txs.drop MaxTransactionCountForRetrieving ≠ [] := by
        intro hempty
        have := congrArg List.length hempty
        simp [List.length_drop] at this
        omega
      cases hrec : mempoolFetchLoopAux env fuel (storeTxsLoop env mp reply.Transactions) (txs.drop MaxTransactionCountForRetrieving) with
      | mk calls res =>
        have hres := ih (storeTxsLoop env mp reply.Transactions) (txs.drop MaxTransactionCountForRetrieving) hrest hok
        rw [hrec] at hres
        simp only [mempoolFetchLoopAux, if_neg h0, if_pos hgt, hcall, herr, hrec]
        exact hres
    · obtain ⟨reply, hcall, herr⟩ := hok txs
      cases hrec : mempoolFetchLoopAux env fuel (storeTxsLoop env mp reply.Transactions) txs with
      | mk calls res =>
        have hres := ih (storeTxsLoop env mp reply.Transactions) txs hne hok
        rw [hrec] at hres
        simp only [mempoolFetchLoopAux, if_neg h0, if_neg hgt, hcall, herr, hrec]
        exact hres

/-- Closed instance of mempool_loop_never_exits: one missing hash,
every RPC succeeding, and five loop iterations of fuel later the loop
still has not exited. -/
theorem mempool_loop_never_exits_witness :
    (([[0]] : List Bytes) ≠ []) ∧
    (∀ items, ∃ r, envT.getMempoolTxs items = .ok r ∧ r.Error = none) ∧
    (mempoolFetchLoopAux envT 5 [] [[0]]).2 = none :=
  ⟨by decide, fun items => ⟨{ Transactions := [], Error := none }, rfl, rfl⟩,
   mempool_loop_never_exits envT 5 [] [[0]] (by decide)
     (fun items => ⟨{ Transactions := [], Error := none }, rfl, rfl⟩)⟩
